import Mathlib

/-!
Verification development for the Fresnelier mask generator
(`fresnelier.py`).  The numeric code is modelled over the real numbers:
Python floats become `ℝ`, Python `int(x)` (truncation toward zero)
becomes `pyInt`, Python `//` on nonnegative integers becomes `Int`
division, and NumPy images become total functions `ℤ → ℤ → ℕ`
(row, column ↦ pixel value), with canvas bounds carried in the
statements.  The process-wide random source is modelled as an explicit
stream `g : ℕ → ℝ` of draws, and the `while True` collision-avoidance
loop as a fuel-indexed recursion.
-/

namespace Fresnelier

open Classical in
/-- Python `int(x)` for a real `x`: truncation toward zero. -/
noncomputable def pyInt (x : ℝ) : ℤ :=
  if 0 ≤ x then ⌊x⌋ else ⌈x⌉

/-- Ring radius `n` (1-based), from
`np.sqrt(n * wavelength * focal_length + (n ** 2) * (wavelength ** 2) / 4)`. -/
noncomputable def radius (lam f : ℝ) (n : ℕ) : ℝ :=
  Real.sqrt (n * lam * f + n ^ 2 * lam ^ 2 / 4)

/-- The list `radii` built by the comprehension over `range(1, num_rings + 1)`. -/
noncomputable def radii_list (lam f : ℝ) (N : ℕ) : List ℝ :=
  (List.range N).map (fun i => radius lam f (i + 1))

/-- Minimum of a list of reals, `min(...)` over a nonempty list
(0 as a junk value on the empty list, which the code never hits). -/
noncomputable def list_min : List ℝ → ℝ
  | [] => 0
  | [a] => a
  | a :: b :: rest => min a (list_min (b :: rest))

/-- The consecutive differences `np.diff(radii)`. -/
noncomputable def diffs (lam f : ℝ) (N : ℕ) : List ℝ :=
  (List.range (N - 1)).map (fun i => radius lam f (i + 2) - radius lam f (i + 1))

/-- `min_ring_thickness = min(np.diff(radii))`. -/
noncomputable def min_ring_thickness (lam f : ℝ) (N : ℕ) : ℝ :=
  list_min (diffs lam f N)

/-- `image_size = int((min_ring_thickness_px / min_ring_thickness) * radii[-1] * 2)`
with `min_ring_thickness_px = 8`. -/
noncomputable def image_size (lam f : ℝ) (N : ℕ) : ℤ :=
  pyInt (8 / min_ring_thickness lam f N * radius lam f N * 2)

/-- The rescaled radii `radii = (radii / radii[-1]) * (image_size // 2)`;
`scaled_radius lam f N n` is entry `n` in 1-based indexing
(NumPy index `n - 1`). -/
noncomputable def scaled_radius (lam f : ℝ) (N n : ℕ) : ℝ :=
  radius lam f n / radius lam f N * ((image_size lam f N / 2 : ℤ) : ℝ)

/-- Minimum consecutive difference of the rescaled radii (pixel-space
ring thickness floor actually achieved). -/
noncomputable def min_scaled_thickness (lam f : ℝ) (N : ℕ) : ℝ :=
  list_min ((List.range (N - 1)).map
    (fun i => scaled_radius lam f N (i + 2) - scaled_radius lam f N (i + 1)))

/-- Euclidean distance of pixel `(i, j)` (row `i`, column `j`) from the
canvas center `(c, c)`, as in `np.sqrt((x - center)**2 + (y - center)**2)`. -/
noncomputable def pix_dist (c i j : ℤ) : ℝ :=
  Real.sqrt (((j - c : ℤ) : ℝ) ^ 2 + ((i - c : ℤ) : ℝ) ^ 2)

open Classical in
/-- One iteration of the zone-plate fill loop: for loop index `k`,
`if k % 2 == 1: image[(distance >= radii[k-1]) & (distance < radii[k])] = 1`.
Here `r` is the 0-based array of scaled radii. -/
noncomputable def band_paint (r : ℕ → ℝ) (c : ℤ) (k : ℕ) (img : ℤ → ℤ → ℕ) :
    ℤ → ℤ → ℕ :=
  fun i j =>
    if k % 2 = 1 ∧ r (k - 1) ≤ pix_dist c i j ∧ pix_dist c i j < r k then 1
    else img i j

/-- The zone-plate loop `for k in range(n)` run for `n` iterations,
starting from the all-zero image `np.zeros(...)`. -/
noncomputable def zone_loop (r : ℕ → ℝ) (c : ℤ) : ℕ → (ℤ → ℤ → ℕ)
  | 0 => fun _ _ => 0
  | n + 1 => band_paint r c n (zone_loop r c n)

/-- `image[:, [0, -1]] = 0; image[[0, -1], :] = 0`. -/
def border_zero (size : ℤ) (img : ℤ → ℤ → ℕ) : ℤ → ℤ → ℕ :=
  fun i j =>
    if i = 0 ∨ i = size - 1 ∨ j = 0 ∨ j = size - 1 then 0 else img i j

/-- The whole `generate_fresnel_zone_plate`, as a pixel map;
`r k = scaled_radius (k+1)` is the 0-based scaled-radii array. -/
noncomputable def generate_fresnel_zone_plate (lam f : ℝ) (N : ℕ) :
    ℤ → ℤ → ℕ :=
  border_zero (image_size lam f N)
    (zone_loop (fun k => scaled_radius lam f N (k + 1)) (image_size lam f N / 2) N)

/-- `dot_radius = max(int(ring_thickness / 2), min_ring_thickness_px // 2)`
with `min_ring_thickness_px // 2 = 4`. -/
noncomputable def dot_radius (t : ℝ) : ℤ :=
  max (pyInt (t / 2)) 4

/-- Non-random dot count:
`num_dots = max(1, int(circumference / ((dot_spacing_min + dot_spacing_max) / 2)))`
with `dot_spacing_min = dot_radius * 3.0`, `dot_spacing_max = dot_radius * 4.0`. -/
noncomputable def num_dots (c : ℝ) (d : ℤ) : ℤ :=
  max 1 (pyInt (c / (((d : ℝ) * 3.0 + (d : ℝ) * 4.0) / 2)))

/-- Random dot count, with `u` the draw of `random.uniform(1.3, 1.5)`:
`num_dots = max(1, int(circumference / ((dot_spacing_min_rand + dot_spacing_max_rand) * u)))`
with `dot_spacing_min_rand = dot_radius * 1.1`, `dot_spacing_max_rand = dot_radius * 4.0`. -/
noncomputable def num_dots_random (c : ℝ) (d : ℤ) (u : ℝ) : ℤ :=
  max 1 (pyInt (c / (((d : ℝ) * 1.1 + (d : ℝ) * 4.0) * u)))

/-- The random dot count as the specification words it: the divisor is the
midpoint of the jittered spacing range `[1.1 * dot_radius, 4.0 * dot_radius]`
(that is, `2.55 * dot_radius`) scaled by the per-ring factor `u`.  This
definition follows the words of the claim and exists only to be compared with
`num_dots_random`, which is translated from the code. -/
noncomputable def num_dots_random_spec (c : ℝ) (d : ℤ) (u : ℝ) : ℤ :=
  max 1 (pyInt (c / (((d : ℝ) * 1.1 + (d : ℝ) * 4.0) / 2 * u)))

/-- Dot-center column `x = center + int((radius_inner + ring_thickness / 2) * np.cos(angle))`;
`rmid` abbreviates `radius_inner + ring_thickness / 2`. -/
noncomputable def dot_x (c : ℤ) (rmid θ : ℝ) : ℤ :=
  c + pyInt (rmid * Real.cos θ)

/-- Dot-center row `y = center + int((radius_inner + ring_thickness / 2) * np.sin(angle))`. -/
noncomputable def dot_y (c : ℤ) (rmid θ : ℝ) : ℤ :=
  c + pyInt (rmid * Real.sin θ)

/-- The bounds test `0 <= x < image_size and 0 <= y < image_size`. -/
def in_canvas (size x y : ℤ) : Prop :=
  0 ≤ x ∧ x < size ∧ 0 ≤ y ∧ y < size

/-- The `break` condition of the collision-avoidance `while True` loop:
`0 <= x < image_size and 0 <= y < image_size and image[y, x] == 0`. -/
noncomputable def loop_exit (size c : ℤ) (img : ℤ → ℤ → ℕ) (rmid θ : ℝ) : Prop :=
  in_canvas size (dot_x c rmid θ) (dot_y c rmid θ) ∧
  img (dot_y c rmid θ) (dot_x c rmid θ) = 0

open Classical in
/-- The collision-avoidance `while True` loop, fuel-indexed.  `g` is the
stream of `random.uniform(0, np.pi / num_dots)` draws and `i` the index of
the next draw; each failed test perturbs the angle by the next draw
(`random_angle += random.uniform(0, np.pi / num_dots)`).  `none` means the
loop has not exited within `fuel` iterations. -/
noncomputable def retry_loop (size c : ℤ) (img : ℤ → ℤ → ℕ) (rmid : ℝ)
    (g : ℕ → ℝ) : ℕ → ℕ → ℝ → Option ℝ
  | 0, _, _ => none
  | fuel + 1, i, θ =>
      if loop_exit size c img rmid θ then some θ
      else retry_loop size c img rmid g fuel (i + 1) (θ + g i)

/-- The loop started at angle `θ` (draw index `i₀` and onwards) never exits,
whatever finite number of iterations it is given. -/
noncomputable def retry_diverges (size c : ℤ) (img : ℤ → ℤ → ℕ) (rmid : ℝ)
    (g : ℕ → ℝ) (θ : ℝ) : Prop :=
  ∀ fuel i, retry_loop size c img rmid g fuel i θ = none

/-- Stamping one dot, from
`rr, cc = np.ogrid[-dot_radius:dot_radius, -dot_radius:dot_radius]`,
`mask = rr**2 + cc**2 <= dot_radius**2`,
`y_min, y_max = max(0, y-dot_radius), min(image_size, y+dot_radius)` (same for x),
`mask = mask[:image_slice.shape[0], :image_slice.shape[1]]`,
`image_slice[mask] = 1`.  Slice row `a = i - y_min` carries the stencil row
`rr = a - dot_radius`, so pixel `(i, j)` is set exactly when it lies in the
clipped window and `(i - y_min - d)^2 + (j - x_min - d)^2 <= d^2`. -/
def place_dot (size : ℤ) (img : ℤ → ℤ → ℕ) (y x d : ℤ) : ℤ → ℤ → ℕ :=
  fun i j =>
    if max 0 (y - d) ≤ i ∧ i < min size (y + d) ∧
       max 0 (x - d) ≤ j ∧ j < min size (x + d) ∧
       (i - max 0 (y - d) - d) ^ 2 + (j - max 0 (x - d) - d) ^ 2 ≤ d ^ 2
    then 1 else img i j

/-- The fail-fast validation in `main`: only
`if num_rings <= 1: raise ValueError("Number of rings must be at least 1")`
is performed; the wavelength and focal length are passed through unchecked. -/
def main_validate (w f : ℝ) (n : ℤ) : Except String Unit :=
  if n ≤ 1 then Except.error "Number of rings must be at least 1" else Except.ok ()

/-! ## Helper lemmas -/

theorem pyInt_of_nonneg {x : ℝ} (h : 0 ≤ x) : pyInt x = ⌊x⌋ := by
  rw [pyInt, if_pos h]

theorem radius_nonneg (lam f : ℝ) (n : ℕ) : 0 ≤ radius lam f n :=
  Real.sqrt_nonneg _

theorem radius_lt_radius (lam f : ℝ) (hl : 0 < lam) (hf : 0 < f) {m n : ℕ}
    (h : m < n) : radius lam f m < radius lam f n := by
  have hmn : (m : ℝ) < (n : ℝ) := by exact_mod_cast h
  have h0 : (0 : ℝ) ≤ (m : ℝ) := by positivity
  apply Real.sqrt_lt_sqrt
  · positivity
  · nlinarith [mul_pos (sub_pos.mpr hmn) (mul_pos hl hf),
      mul_nonneg (mul_nonneg (sub_nonneg.mpr hmn.le)
        (by positivity : (0 : ℝ) ≤ (m : ℝ) + (n : ℝ))) (sq_nonneg lam)]

theorem radius_pos (lam f : ℝ) (hl : 0 < lam) (hf : 0 < f) {n : ℕ}
    (hn : 1 ≤ n) : 0 < radius lam f n := by
  have := radius_lt_radius lam f hl hf (Nat.lt_of_lt_of_le Nat.zero_lt_one hn)
  have h0 : radius lam f 0 = 0 := by
    simp [radius]
  linarith

theorem list_min_pos : ∀ l : List ℝ, l ≠ [] → (∀ x ∈ l, 0 < x) → 0 < list_min l
  | [], h, _ => absurd rfl h
  | [a], _, h => by simpa [list_min] using h a (by simp)
  | a :: b :: rest, _, h => by
      have ih := list_min_pos (b :: rest) (by simp)
        (fun x hx => h x (List.mem_cons_of_mem a hx))
      simp only [list_min, lt_min_iff]
      exact ⟨h a (List.mem_cons_self a (b :: rest)), ih⟩

theorem list_min_map_mul : ∀ (l : List ℝ) (c : ℝ), 0 ≤ c → l ≠ [] →
    list_min (l.map (fun x => x * c)) = list_min l * c
  | [], _, _, h => absurd rfl h
  | [a], c, _, _ => by simp [list_min]
  | a :: b :: rest, c, hc, _ => by
      have ih := list_min_map_mul (b :: rest) c hc (by simp)
      simp only [List.map_cons] at ih ⊢
      simp only [list_min, ih]
      rcases le_total a (list_min (b :: rest)) with h | h
      · rw [min_eq_left h, min_eq_left (mul_le_mul_of_nonneg_right h hc)]
      · rw [min_eq_right h, min_eq_right (mul_le_mul_of_nonneg_right h hc)]

theorem diffs_ne_nil (lam f : ℝ) {N : ℕ} (hN : 2 ≤ N) : diffs lam f N ≠ [] := by
  simp only [diffs, ne_eq, List.map_eq_nil_iff, List.range_eq_nil]
  omega

theorem min_ring_thickness_pos (lam f : ℝ) {N : ℕ} (hl : 0 < lam) (hf : 0 < f)
    (hN : 2 ≤ N) : 0 < min_ring_thickness lam f N := by
  apply list_min_pos _ (diffs_ne_nil lam f hN)
  intro x hx
  simp only [diffs, List.mem_map] at hx
  obtain ⟨i, _, rfl⟩ := hx
  have := radius_lt_radius lam f hl hf (show i + 1 < i + 2 by omega)
  linarith

/-! ## Concrete evaluations at wavelength 2 m, focal length 24 m, 2 rings
(the radii are exactly 7 and 10 there, so everything is rational). -/

theorem radius_eval_one : radius 2 24 1 = 7 := by
  have h : ((1 : ℕ) : ℝ) * 2 * 24 + ((1 : ℕ) : ℝ) ^ 2 * 2 ^ 2 / 4 = 7 ^ 2 := by
    norm_num
  rw [radius, h, Real.sqrt_sq (by norm_num : (0 : ℝ) ≤ 7)]

theorem radius_eval_two : radius 2 24 2 = 10 := by
  have h : ((2 : ℕ) : ℝ) * 2 * 24 + ((2 : ℕ) : ℝ) ^ 2 * 2 ^ 2 / 4 = 10 ^ 2 := by
    norm_num
  rw [radius, h, Real.sqrt_sq (by norm_num : (0 : ℝ) ≤ 10)]

theorem min_ring_thickness_eval : min_ring_thickness 2 24 2 = 3 := by
  have h : diffs 2 24 2 = [radius 2 24 2 - radius 2 24 1] := by
    simp [diffs, List.range_succ]
  rw [min_ring_thickness, h, radius_eval_one, radius_eval_two]
  norm_num [list_min]

theorem image_size_eval : image_size 2 24 2 = 53 := by
  rw [image_size, min_ring_thickness_eval, radius_eval_two,
    show (8 : ℝ) / 3 * 10 * 2 = 160 / 3 by norm_num,
    pyInt_of_nonneg (by norm_num : (0 : ℝ) ≤ 160 / 3)]
  rw [Int.floor_eq_iff]
  constructor <;> norm_num

theorem scaled_radius_eval_one : scaled_radius 2 24 2 1 = 91 / 5 := by
  rw [scaled_radius, radius_eval_one, radius_eval_two, image_size_eval]
  norm_num

theorem scaled_radius_eval_two : scaled_radius 2 24 2 2 = 26 := by
  rw [scaled_radius, radius_eval_two, image_size_eval]
  norm_num

/-! ## C2: radius sequence builder -/

/-- C2.  For every wavelength > 0, focal length > 0 and `numRings ≥ 2`, the
radius list has exactly `numRings` elements, its `n`-th element (1-based)
equals `sqrt(n * wavelength * focalLength + n^2 * wavelength^2 / 4)`, and the
list is strictly increasing. -/
theorem c2_radius_sequence (lam f : ℝ) (N : ℕ) (hl : 0 < lam) (hf : 0 < f)
    (hN : 2 ≤ N) :
    (radii_list lam f N).length = N ∧
    (∀ n, 1 ≤ n → n ≤ N → (radii_list lam f N).getD (n - 1) 0 =
      Real.sqrt (n * lam * f + n ^ 2 * lam ^ 2 / 4)) ∧
    (radii_list lam f N).Pairwise (· < ·) := by
  refine ⟨by simp [radii_list], ?_, ?_⟩
  · intro n h1 h2
    have hlt : n - 1 < N := by omega
    rw [radii_list, List.getD_eq_getElem _ _ (by simpa using hlt)]
    simp only [List.getElem_map, List.getElem_range]
    rw [show n - 1 + 1 = n by omega, radius]
  · rw [radii_list, List.pairwise_map]
    exact (List.pairwise_lt_range N).imp
      (fun h => radius_lt_radius lam f hl hf (by omega))

/-- Witness for C2 at wavelength 1, focal length 1, 2 rings. -/
theorem c2_radius_sequence_witness :
    (radii_list 1 1 2).length = 2 ∧
    (∀ n, 1 ≤ n → n ≤ 2 → (radii_list 1 1 2).getD (n - 1) 0 =
      Real.sqrt (n * 1 * 1 + n ^ 2 * 1 ^ 2 / 4)) ∧
    (radii_list 1 1 2).Pairwise (· < ·) :=
  c2_radius_sequence 1 1 2 one_pos one_pos (le_refl 2)

/-! ## C3: canvas sizer -/

/-- C3.  For valid parameters, `image_size` is the floor of
`(8 / minGap) * radii[N] * 2` (the Python `int()` truncation coincides with
the floor on this nonnegative quantity), every radius is rescaled by the
factor `(image_size // 2) / radii[N]`, and consequently the outermost scaled
radius is exactly `image_size // 2`. -/
theorem c3_canvas_sizer (lam f : ℝ) (N : ℕ) (hl : 0 < lam) (hf : 0 < f)
    (hN : 2 ≤ N) :
    image_size lam f N = ⌊8 / min_ring_thickness lam f N * radius lam f N * 2⌋ ∧
    (∀ n : ℕ, scaled_radius lam f N n =
      radius lam f n * (((image_size lam f N / 2 : ℤ) : ℝ) / radius lam f N)) ∧
    scaled_radius lam f N N = ((image_size lam f N / 2 : ℤ) : ℝ) := by
  have hm := min_ring_thickness_pos lam f hl hf hN
  have hR := radius_pos lam f hl hf (show 1 ≤ N by omega)
  refine ⟨?_, ?_, ?_⟩
  · rw [image_size, pyInt_of_nonneg]
    positivity
  · intro n
    rw [scaled_radius]
    ring
  · rw [scaled_radius, div_self (ne_of_gt hR), one_mul]

/-- Witness for C3 at wavelength 2, focal length 24, 2 rings. -/
theorem c3_canvas_sizer_witness :
    image_size 2 24 2 = ⌊8 / min_ring_thickness 2 24 2 * radius 2 24 2 * 2⌋ ∧
    (∀ n : ℕ, scaled_radius 2 24 2 n =
      radius 2 24 n * (((image_size 2 24 2 / 2 : ℤ) : ℝ) / radius 2 24 2)) ∧
    scaled_radius 2 24 2 2 = ((image_size 2 24 2 / 2 : ℤ) : ℝ) :=
  c3_canvas_sizer 2 24 2 (by norm_num) (by norm_num) (le_refl 2)

/-! ## C4: pixel-space ring-thickness invariant (corrected) -/

/-- Counterexample to C4.  At the valid input wavelength 2 m, focal length
24 m, 2 rings, the physical radii are 7 and 10, `image_size = 53`, the
scaled radii are 18.2 and 26, and the minimum scaled ring thickness is
7.8 < 8: the claimed 8-pixel floor does not hold (hence `image_size` is also
not the smallest integer enforcing that floor). -/
theorem c4_counterexample :
    (0 : ℝ) < 2 ∧ (0 : ℝ) < 24 ∧ 2 ≤ 2 ∧
    min_scaled_thickness 2 24 2 < 8 := by
  refine ⟨by norm_num, by norm_num, le_refl 2, ?_⟩
  have h : min_scaled_thickness 2 24 2 =
      scaled_radius 2 24 2 2 - scaled_radius 2 24 2 1 := by
    simp [min_scaled_thickness, List.range_succ, list_min]
  rw [h, scaled_radius_eval_one, scaled_radius_eval_two]
  norm_num

/-- C4 as amended.  For every valid input the minimum ring thickness of the
scaled radii is at most 8 pixels: it equals
`minGap * (image_size // 2) / radii[N]`, and the two floor operations
(`int(...)` and `// 2`) can push it strictly below the 8-pixel target, as
`c4_counterexample` shows. -/
theorem c4_amended (lam f : ℝ) (N : ℕ) (hl : 0 < lam) (hf : 0 < f)
    (hN : 2 ≤ N) : min_scaled_thickness lam f N ≤ 8 := by
  have hm := min_ring_thickness_pos lam f hl hf hN
  have hR := radius_pos lam f hl hf (show 1 ≤ N by omega)
  set m := min_ring_thickness lam f N with hm_def
  set R := radius lam f N with hR_def
  set S := image_size lam f N with hS_def
  set H : ℝ := ((S / 2 : ℤ) : ℝ) with hH_def
  have hS0 : (0 : ℤ) ≤ S := by
    rw [hS_def, image_size, pyInt_of_nonneg (by positivity)]
    exact Int.floor_nonneg.mpr (by positivity)
  have hH0 : (0 : ℝ) ≤ H := by
    rw [hH_def]
    have : (0 : ℤ) ≤ S / 2 := by omega
    exact_mod_cast this
  -- the scaled differences are the physical differences times H / R
  have hmap : min_scaled_thickness lam f N = m * (H / R) := by
    have h1 : (List.range (N - 1)).map
        (fun i => scaled_radius lam f N (i + 2) - scaled_radius lam f N (i + 1)) =
        (diffs lam f N).map (fun x => x * (H / R)) := by
      rw [diffs, List.map_map]
      apply List.map_congr_left
      intro i _
      simp only [Function.comp_apply, scaled_radius]
      ring
    rw [min_scaled_thickness, h1,
      list_min_map_mul _ _ (div_nonneg hH0 hR.le) (diffs_ne_nil lam f hN)]
    rfl
  -- image_size is the floor of X = (8 / m) * R * 2, and S / 2 ≤ X / 2
  have hSX : (S : ℝ) ≤ 8 / m * R * 2 := by
    rw [hS_def, image_size, pyInt_of_nonneg (by positivity)]
    exact Int.floor_le _
  have hhalf : 2 * (S / 2 : ℤ) ≤ S := by omega
  have hH2 : H ≤ (S : ℝ) / 2 := by
    have : ((2 * (S / 2 : ℤ) : ℤ) : ℝ) ≤ ((S : ℤ) : ℝ) := by exact_mod_cast hhalf
    push_cast at this
    linarith
  have hH8 : H ≤ 8 * R / m := by
    have : (8 : ℝ) / m * R * 2 / 2 = 8 * R / m := by ring
    linarith
  have hmH : m * H ≤ 8 * R := by
    calc m * H ≤ m * (8 * R / m) := mul_le_mul_of_nonneg_left hH8 hm.le
      _ = 8 * R := by field_simp
  rw [hmap, show m * (H / R) = m * H / R by ring, div_le_iff₀ hR]
  linarith

/-- Witness for the amended C4 at wavelength 2, focal length 24, 2 rings. -/
theorem c4_amended_witness : min_scaled_thickness 2 24 2 ≤ 8 :=
  c4_amended 2 24 2 (by norm_num) (by norm_num) (le_refl 2)

/-! ## C1: zone plate rasterizer -/

theorem zone_loop_eq_one_iff (r : ℕ → ℝ) (c : ℤ) (n : ℕ) (i j : ℤ) :
    zone_loop r c n i j = 1 ↔
    ∃ k, k < n ∧ k % 2 = 1 ∧ r (k - 1) ≤ pix_dist c i j ∧ pix_dist c i j < r k := by
  induction n with
  | zero => simp [zone_loop]
  | succ n ih =>
      simp only [zone_loop, band_paint]
      by_cases h : n % 2 = 1 ∧ r (n - 1) ≤ pix_dist c i j ∧ pix_dist c i j < r n
      · rw [if_pos h]
        simp only [true_iff]
        exact ⟨n, Nat.lt_succ_self n, h.1, h.2.1, h.2.2⟩
      · rw [if_neg h, ih]
        constructor
        · rintro ⟨k, hk, hodd, hlo, hhi⟩
          exact ⟨k, Nat.lt_succ_of_lt hk, hodd, hlo, hhi⟩
        · rintro ⟨k, hk, hodd, hlo, hhi⟩
          rcases Nat.lt_succ_iff_lt_or_eq.mp hk with hk2 | rfl
          · exact ⟨k, hk2, hodd, hlo, hhi⟩
          · exact absurd ⟨hodd, hlo, hhi⟩ h

/-- C1.  For every pixel of the returned zone-plate mask, the pixel is
opaque (1) iff its Euclidean distance from the canvas center lies in an
odd-indexed ring band — `scaledRadii[k-1] ≤ distance < scaledRadii[k]` for
some odd `k` in 0-based array indexing, rendered here in the 1-based
`scaled_radius` numbering as `scaled_radius k ≤ distance < scaled_radius (k+1)`
— except that border row/column pixels are always 0.  The mask is a pure
function of the inputs, hence deterministic. -/
theorem c1_zone_plate (lam f : ℝ) (N : ℕ) (i j : ℤ)
    (h1 : 0 ≤ i) (h2 : i < image_size lam f N)
    (h3 : 0 ≤ j) (h4 : j < image_size lam f N) :
    generate_fresnel_zone_plate lam f N i j = 1 ↔
    ¬(i = 0 ∨ i = image_size lam f N - 1 ∨ j = 0 ∨ j = image_size lam f N - 1) ∧
    ∃ k, k < N ∧ k % 2 = 1 ∧
      scaled_radius lam f N k ≤ pix_dist (image_size lam f N / 2) i j ∧
      pix_dist (image_size lam f N / 2) i j < scaled_radius lam f N (k + 1) := by
  rw [generate_fresnel_zone_plate, border_zero]
  by_cases hb : i = 0 ∨ i = image_size lam f N - 1 ∨ j = 0 ∨ j = image_size lam f N - 1
  · rw [if_pos hb]
    simp [hb]
  · rw [if_neg hb, zone_loop_eq_one_iff]
    simp only [hb, not_false_eq_true, true_and]
    constructor
    · rintro ⟨k, hk, hodd, hlo, hhi⟩
      have hk1 : 1 ≤ k := by omega
      refine ⟨k, hk, hodd, ?_, hhi⟩
      rwa [show k - 1 + 1 = k by omega] at hlo
    · rintro ⟨k, hk, hodd, hlo, hhi⟩
      have hk1 : 1 ≤ k := by omega
      refine ⟨k, hk, hodd, ?_, hhi⟩
      rwa [show k - 1 + 1 = k by omega]

/-- Witness for C1 at wavelength 2, focal length 24, 2 rings, pixel (1, 1)
(the canvas is 53 × 53 there). -/
theorem c1_zone_plate_witness :
    generate_fresnel_zone_plate 2 24 2 1 1 = 1 ↔
    ¬((1 : ℤ) = 0 ∨ (1 : ℤ) = image_size 2 24 2 - 1 ∨
      (1 : ℤ) = 0 ∨ (1 : ℤ) = image_size 2 24 2 - 1) ∧
    ∃ k, k < 2 ∧ k % 2 = 1 ∧
      scaled_radius 2 24 2 k ≤ pix_dist (image_size 2 24 2 / 2) 1 1 ∧
      pix_dist (image_size 2 24 2 / 2) 1 1 < scaled_radius 2 24 2 (k + 1) :=
  c1_zone_plate 2 24 2 1 1 (by norm_num)
    (by rw [image_size_eval]; norm_num) (by norm_num)
    (by rw [image_size_eval]; norm_num)

/-! ## C5: photon sieve dot counts (corrected) -/

/-- Counterexample to C5.  At circumference 100, `dot_radius` 4 and per-ring
factor `u = 1.3` (inside the drawn range `[1.3, 1.5]`), the code computes
`max(1, int(100 / ((1.1*4 + 4.0*4) * 1.3))) = 3` dots, while the claimed
midpoint formula `max(1, int(100 / (2.55*4 * 1.3)))` gives 7:
the random divisor is the sum of the spacing-range endpoints times `u`,
not their midpoint times `u`. -/
theorem c5_counterexample :
    num_dots_random 100 4 (13 / 10) = 3 ∧
    num_dots_random_spec 100 4 (13 / 10) = 7 ∧
    num_dots_random 100 4 (13 / 10) ≠ num_dots_random_spec 100 4 (13 / 10) := by
  have h1 : num_dots_random 100 4 (13 / 10) = 3 := by
    rw [num_dots_random,
      show (100 : ℝ) / ((((4 : ℤ) : ℝ) * 1.1 + ((4 : ℤ) : ℝ) * 4.0) * (13 / 10)) =
        2500 / 663 by norm_num,
      pyInt_of_nonneg (by norm_num : (0 : ℝ) ≤ 2500 / 663)]
    have hf : ⌊(2500 : ℝ) / 663⌋ = 3 := by
      rw [Int.floor_eq_iff]
      constructor <;> norm_num
    rw [hf]
    decide
  have h2 : num_dots_random_spec 100 4 (13 / 10) = 7 := by
    rw [num_dots_random_spec,
      show (100 : ℝ) / ((((4 : ℤ) : ℝ) * 1.1 + ((4 : ℤ) : ℝ) * 4.0) / 2 * (13 / 10)) =
        5000 / 663 by norm_num,
      pyInt_of_nonneg (by norm_num : (0 : ℝ) ≤ 5000 / 663)]
    have hf : ⌊(5000 : ℝ) / 663⌋ = 7 := by
      rw [Int.floor_eq_iff]
      constructor <;> norm_num
    rw [hf]
    decide
  refine ⟨h1, h2, ?_⟩
  rw [h1, h2]
  norm_num

/-- C5 as amended.  For every ring of thickness `t ≥ 0` and circumference
`c ≥ 0`: `dot_radius = max(floor(t/2), 4)`; without random spacing
`num_dots = max(1, floor(c / (3.5 * dot_radius)))`; with random spacing and
per-ring factor `u` drawn from `[1.3, 1.5]`,
`num_dots = max(1, floor(c / (5.1 * dot_radius * u)))` — the divisor is the
sum `(1.1 + 4.0) * dot_radius` of the jittered-range endpoints scaled by `u`,
not the midpoint `2.55 * dot_radius`. -/
theorem c5_amended (t c u : ℝ) (ht : 0 ≤ t) (hc : 0 ≤ c)
    (hu : 13 / 10 ≤ u) (hu2 : u ≤ 3 / 2) :
    dot_radius t = max ⌊t / 2⌋ 4 ∧
    num_dots c (dot_radius t) = max 1 ⌊c / ((dot_radius t : ℝ) * (7 / 2))⌋ ∧
    num_dots_random c (dot_radius t) u =
      max 1 ⌊c / ((dot_radius t : ℝ) * (51 / 10) * u)⌋ := by
  have hd4 : (4 : ℤ) ≤ dot_radius t := le_max_right _ _
  have hd : (0 : ℝ) < ((dot_radius t : ℤ) : ℝ) := by
    have : ((4 : ℤ) : ℝ) ≤ ((dot_radius t : ℤ) : ℝ) := by exact_mod_cast hd4
    push_cast at this
    linarith
  have hu0 : (0 : ℝ) < u := by linarith
  refine ⟨?_, ?_, ?_⟩
  · rw [dot_radius, pyInt_of_nonneg (by positivity)]
  · rw [num_dots,
      show (((dot_radius t : ℤ) : ℝ) * 3.0 + ((dot_radius t : ℤ) : ℝ) * 4.0) / 2 =
        ((dot_radius t : ℤ) : ℝ) * (7 / 2) by ring,
      pyInt_of_nonneg (by positivity)]
  · rw [num_dots_random,
      show (((dot_radius t : ℤ) : ℝ) * 1.1 + ((dot_radius t : ℤ) : ℝ) * 4.0) * u =
        ((dot_radius t : ℤ) : ℝ) * (51 / 10) * u by ring,
      pyInt_of_nonneg (by positivity)]

/-- Witness for the amended C5 at thickness 10, circumference 100,
`u = 1.3`. -/
theorem c5_amended_witness :
    dot_radius 10 = max ⌊(10 : ℝ) / 2⌋ 4 ∧
    num_dots 100 (dot_radius 10) = max 1 ⌊(100 : ℝ) / ((dot_radius 10 : ℝ) * (7 / 2))⌋ ∧
    num_dots_random 100 (dot_radius 10) (13 / 10) =
      max 1 ⌊(100 : ℝ) / ((dot_radius 10 : ℝ) * (51 / 10) * (13 / 10))⌋ :=
  c5_amended 10 100 (13 / 10) (by norm_num) (by norm_num) (by norm_num) (by norm_num)

/-! ## C6, C7: the collision-avoidance retry loop (corrected) -/

theorem retry_loop_step_exit (size c : ℤ) (img : ℤ → ℤ → ℕ) (rmid : ℝ)
    (g : ℕ → ℝ) (fuel i : ℕ) (θ : ℝ) (h : loop_exit size c img rmid θ) :
    retry_loop size c img rmid g (fuel + 1) i θ = some θ := by
  simp only [retry_loop, if_pos h]

/-- The break condition holds at angle 0 for radius 0 on an all-open 3 × 3
canvas with center pixel (1, 1). -/
theorem loop_exit_concrete : loop_exit 3 1 (fun _ _ => 0) 0 0 := by
  have hx : dot_x 1 0 0 = 1 := by
    simp [dot_x, pyInt]
  have hy : dot_y 1 0 0 = 1 := by
    simp [dot_y, pyInt]
  refine ⟨?_, rfl⟩
  rw [in_canvas, hx, hy]
  norm_num

/-- Counterexample to C6.  On a canvas whose pixels are all opaque along the
candidate circle (here: an all-ones image, with the geometry of the
wavelength 2 m, focal length 24 m, 2 rings run: size 53, center 26, mid-ring
radius 22.1) and the draw stream that always returns 0 (a value
`random.uniform` can produce), the `while True` loop never exits, no matter
how many iterations it is allowed: the collision-avoidance retry loop does
not always terminate. -/
theorem c6_counterexample :
    retry_diverges 53 26 (fun _ _ => 1) (221 / 10) (fun _ => 0) 0 := by
  intro fuel
  induction fuel with
  | zero => intro i; simp [retry_loop]
  | succ n ih =>
      intro i
      have hne : ¬loop_exit 53 26 (fun _ _ => 1) (221 / 10) 0 := by
        rintro ⟨-, h⟩
        exact one_ne_zero h
      simp only [retry_loop, if_neg hne]
      simpa using ih (i + 1)

/-- C6 as amended.  Generation is a finite fold over `numRings` and the
per-ring dot counts except for the retry loop, which terminates as soon as
the pixel position of the current angle is in bounds and open — in particular it
exits immediately, with any fuel, when the break condition holds at the
current angle.  It is not always terminating: `c6_counterexample` exhibits
an opaque configuration and a draw sequence on which it runs forever. -/
theorem c6_amended (size c : ℤ) (img : ℤ → ℤ → ℕ) (rmid : ℝ) (g : ℕ → ℝ)
    (fuel i : ℕ) (θ : ℝ) (h : loop_exit size c img rmid θ) :
    retry_loop size c img rmid g (fuel + 1) i θ = some θ := by
  simp only [retry_loop, if_pos h]

/-- Witness for the amended C6: the loop run with fuel 1 at a state
satisfying the break condition returns immediately. -/
theorem c6_amended_witness :
    retry_loop 3 1 (fun _ _ => 0) 0 (fun _ => 0) 1 0 0 = some 0 :=
  c6_amended 3 1 (fun _ _ => 0) 0 (fun _ => 0) 0 0 0 loop_exit_concrete

/-- Counterexample to C7.  With size 3, center 1 and mid-ring radius 10, the
angle-0 position is the out-of-bounds pixel (11, 1) — yet on the all-zero
(fully open) canvas with zero draws the loop never exits: an out-of-bounds
position does not end the retry (the claim says the dot is then skipped);
the code keeps re-perturbing forever instead. -/
theorem c7_counterexample :
    ¬in_canvas 3 (dot_x 1 10 0) (dot_y 1 10 0) ∧
    retry_diverges 3 1 (fun _ _ => 0) 10 (fun _ => 0) 0 := by
  have hx : dot_x 1 10 0 = 11 := by
    rw [dot_x, Real.cos_zero, mul_one, pyInt_of_nonneg (by norm_num)]
    norm_num
  have hnc : ¬in_canvas 3 (dot_x 1 10 0) (dot_y 1 10 0) := by
    rw [in_canvas, hx]
    push_neg
    intro
    norm_num
  refine ⟨hnc, ?_⟩
  intro fuel
  induction fuel with
  | zero => intro i; simp [retry_loop]
  | succ n ih =>
      intro i
      have hne : ¬loop_exit 3 1 (fun _ _ => 0) 10 0 := fun h => hnc h.1
      simp only [retry_loop, if_neg hne]
      simpa using ih (i + 1)

/-- C7 as amended.  The loop keeps re-perturbing while the position is out
of canvas bounds or holds an opaque pixel; whenever it exits with an angle,
the position of that angle is in bounds and open (the dot is then always
stamped) — an out-of-bounds position never terminates the loop and no dot
is ever skipped. -/
theorem c7_amended (size c : ℤ) (img : ℤ → ℤ → ℕ) (rmid : ℝ) (g : ℕ → ℝ) :
    ∀ fuel i θ θ2, retry_loop size c img rmid g fuel i θ = some θ2 →
      loop_exit size c img rmid θ2 := by
  intro fuel
  induction fuel with
  | zero => intro i θ θ2 h; simp [retry_loop] at h
  | succ n ih =>
      intro i θ θ2 h
      by_cases hx : loop_exit size c img rmid θ
      · simp only [retry_loop, if_pos hx, Option.some.injEq] at h
        rwa [← h]
      · simp only [retry_loop, if_neg hx] at h
        exact ih (i + 1) (θ + g i) θ2 h

/-- Witness for the amended C7 at the concrete exiting run of
the configuration of `c6_amended_witness`. -/
theorem c7_amended_witness : loop_exit 3 1 (fun _ _ => 0) 0 0 :=
  c7_amended 3 1 (fun _ _ => 0) 0 (fun _ => 0) 1 0 0 0
    (retry_loop_step_exit 3 1 (fun _ _ => 0) 0 (fun _ => 0) 0 0 0 loop_exit_concrete)

/-! ## C8: disk stamping (corrected) -/

/-- Counterexample to C8.  On a 100 × 100 canvas, stamping a dot of radius 4
centered at the interior pixel (50, 50) leaves pixel (54, 50) open, although
its Euclidean distance from the center is exactly 4 ≤ dotRadius and it is in
canvas: `np.ogrid[-d:d, -d:d]` excludes the `+d` offsets, so the inclusive
claim fails. -/
theorem c8_counterexample :
    in_canvas 100 54 50 ∧
    ((54 : ℤ) - 50) ^ 2 + ((50 : ℤ) - 50) ^ 2 ≤ 4 ^ 2 ∧
    place_dot 100 (fun _ _ => 0) 50 50 4 54 50 = 0 := by
  refine ⟨?_, by norm_num, ?_⟩
  · rw [in_canvas]
    norm_num
  · rw [place_dot]
    norm_num

/-- C8 as amended.  For a dot center not clipped by the canvas
(`d ≤ y`, `y + d ≤ size`, `d ≤ x`, `x + d ≤ size`), a previously open pixel
`(i, j)` is opaque after stamping iff its offsets from the center lie in the
half-open box `[-d, d) × [-d, d)` and satisfy the disk inequality
`(i-y)^2 + (j-x)^2 ≤ d^2`: the `+d` edges of the disk are never stamped.
(Out-of-canvas portions are clipped without error, but the stencil is
indexed from the clipped window origin, so top/left clipping misaligns the
disk; the unclipped case stated here is the faithful core of the claim.) -/
theorem c8_amended (size y x d i j : ℤ) (img : ℤ → ℤ → ℕ)
    (hy1 : d ≤ y) (hy2 : y + d ≤ size) (hx1 : d ≤ x) (hx2 : x + d ≤ size)
    (hd : 0 ≤ d) (hij : img i j = 0) :
    place_dot size img y x d i j = 1 ↔
    (y - d ≤ i ∧ i < y + d ∧ x - d ≤ j ∧ j < x + d ∧
      (i - y) ^ 2 + (j - x) ^ 2 ≤ d ^ 2) := by
  have h1 : max 0 (y - d) = y - d := max_eq_right (by linarith)
  have h2 : min size (y + d) = y + d := min_eq_right hy2
  have h3 : max 0 (x - d) = x - d := max_eq_right (by linarith)
  have h4 : min size (x + d) = x + d := min_eq_right hx2
  have e1 : i - (y - d) - d = i - y := by ring
  have e2 : j - (x - d) - d = j - x := by ring
  rw [place_dot]
  simp only [h1, h2, h3, h4, e1, e2]
  by_cases h : y - d ≤ i ∧ i < y + d ∧ x - d ≤ j ∧ j < x + d ∧
      (i - y) ^ 2 + (j - x) ^ 2 ≤ d ^ 2
  · rw [if_pos h]
    simp [h]
  · rw [if_neg h, hij]
    constructor
    · intro h0
      exact absurd h0 (by norm_num)
    · intro hc
      exact absurd hc h

/-- Witness for the amended C8: the stamped disk covers the left-edge pixel
(50, 46) of a radius-4 dot centered at (50, 50) on a 100 × 100 canvas. -/
theorem c8_amended_witness : place_dot 100 (fun _ _ => 0) 50 50 4 50 46 = 1 :=
  (c8_amended 100 50 50 4 50 46 (fun _ _ => 0) (by norm_num) (by norm_num)
    (by norm_num) (by norm_num) (by norm_num) rfl).mpr (by norm_num)

/-! ## C9: input validation (corrected) -/

/-- Counterexample to C9.  A non-positive wavelength (here -1 m, with focal
length 1 m and 5 rings) passes validation without any error: `main` checks
only `num_rings <= 1` and never validates the sign of the wavelength or the
focal length. -/
theorem c9_counterexample :
    (-1 : ℝ) ≤ 0 ∧ main_validate (-1) 1 5 = Except.ok () := by
  constructor
  · norm_num
  · rfl

/-- C9 as amended.  The fail-fast validation accepts an input iff
`numRings ≥ 2`, regardless of the wavelength and focal length: only
`numRings ≤ 1` raises `ValueError` (before any mask computation);
non-positive wavelengths and focal lengths are not validated and raise
nothing. -/
theorem c9_amended (w f : ℝ) (n : ℤ) :
    main_validate w f n = Except.ok () ↔ 2 ≤ n := by
  rw [main_validate]
  by_cases h : n ≤ 1
  · rw [if_pos h]
    constructor
    · intro hc
      exact absurd hc (by simp)
    · intro h2
      omega
  · rw [if_neg h]
    constructor
    · intro
      omega
    · intro
      rfl

/-! ## C10: innermost disk of the random photon sieve (code bug) -/

/-- Evidence for the C10 code bug at wavelength 2 m, focal length 24 m,
2 rings.  The canvas is 53 × 53 with center 26, the scaled radii are 18.2
and 26, and the single dark ring has thickness 7.8, so
`dot_radius = max(int(3.9), 4) = 4 > 3.9`: dots protrude inward past
`scaledRadii[0]`.  Concretely, the angle-0 dot of ring 1 is centered at
column `x = 48`, row `y = 26`, and stamping it on the fresh canvas sets
pixel (row 26, column 44) — whose distance from the center, 18, is inside
the innermost disk of radius 18.2 — to opaque.  Later operations only set
further pixels to 1 or zero the border, so the returned mask violates the
all-open innermost disk that both the dedicated center-fill step of the code and
the specification intend. -/
theorem c10_code_bug :
    image_size 2 24 2 = 53 ∧
    scaled_radius 2 24 2 1 = 91 / 5 ∧
    scaled_radius 2 24 2 2 = 26 ∧
    dot_radius (scaled_radius 2 24 2 2 - scaled_radius 2 24 2 1) = 4 ∧
    dot_x 26 (scaled_radius 2 24 2 1 +
      (scaled_radius 2 24 2 2 - scaled_radius 2 24 2 1) / 2) 0 = 48 ∧
    dot_y 26 (scaled_radius 2 24 2 1 +
      (scaled_radius 2 24 2 2 - scaled_radius 2 24 2 1) / 2) 0 = 26 ∧
    place_dot 53 (fun _ _ => 0) 26 48 4 26 44 = 1 ∧
    ((44 : ℤ) - 26 : ℝ) ^ 2 + ((26 : ℤ) - 26 : ℝ) ^ 2 ≤
      (scaled_radius 2 24 2 1) ^ 2 := by
  have hrm : scaled_radius 2 24 2 1 +
      (scaled_radius 2 24 2 2 - scaled_radius 2 24 2 1) / 2 = 221 / 10 := by
    rw [scaled_radius_eval_one, scaled_radius_eval_two]
    norm_num
  refine ⟨image_size_eval, scaled_radius_eval_one, scaled_radius_eval_two,
    ?_, ?_, ?_, ?_, ?_⟩
  · rw [scaled_radius_eval_one, scaled_radius_eval_two,
      show (26 : ℝ) - 91 / 5 = 39 / 5 by norm_num, dot_radius,
      show (39 : ℝ) / 5 / 2 = 39 / 10 by norm_num,
      pyInt_of_nonneg (by norm_num : (0 : ℝ) ≤ 39 / 10)]
    have hf : ⌊(39 : ℝ) / 10⌋ = 3 := by
      rw [Int.floor_eq_iff]
      constructor <;> norm_num
    rw [hf]
    decide
  · rw [dot_x, hrm, Real.cos_zero, mul_one,
      pyInt_of_nonneg (by norm_num : (0 : ℝ) ≤ 221 / 10)]
    have hf : ⌊(221 : ℝ) / 10⌋ = 22 := by
      rw [Int.floor_eq_iff]
      constructor <;> norm_num
    rw [hf]
    decide
  · rw [dot_y, hrm, Real.sin_zero, mul_zero,
      pyInt_of_nonneg (le_refl 0), Int.floor_zero]
    decide
  · rw [place_dot]
    norm_num
  · rw [scaled_radius_eval_one]
    norm_num

end Fresnelier
